import Mathlib

/-!
Verification of the forkdb-lmdb core (fork registry, copy-on-write lookup
chain, fork allocation, merge-on-drop engine) against its specification.

The embedding models the persistent state visible to one LMDB transaction:
the fork registry (table `fork`, mapping `fork:<id>` to a record
`{parentID, childIDs}`) and one private key-value table per fork id.
Each source function of `openForkDB` is translated to a Lean function on
this state; exceptions become `Except DBError`, and absent keys become
`Option`-`none` results, exactly as in the source.
-/

namespace ForkDB

/-- One LMDB table: an association list of string keys to string values.
Lookups return the first binding of a key; `tput` (LMDB put) overwrites,
`tdel` (LMDB del) removes, `tkeys` (txn.keys) lists the keys. -/
abbrev Table := List (String × String)

/-- `txn.getString(dbi, key)` / `txn.getBinary(dbi, key)`: first binding
of `k` in the table, `none` when the key is absent. -/
def tlookup : Table → String → Option String
  | [], _ => none
  | (k', v) :: rest, k => if k' = k then some v else tlookup rest k

/-- `txn.del(dbi, key)`: remove every binding of `k`. -/
def tdel : Table → String → Table
  | [], _ => []
  | (k', v) :: rest, k => if k' = k then tdel rest k else (k', v) :: tdel rest k

/-- `txn.putString(dbi, key, value)`: overwrite the binding of `k`. -/
def tput (t : Table) (k v : String) : Table :=
  (k, v) :: tdel t k

/-- `txn.keys(dbi)`: the keys stored in the table. -/
def tkeys (t : Table) : List String :=
  t.map (fun kv => kv.1)

/-- The registry record `ForkRecord = { parentID, childIDs }` stored under
key `fork:<id>` in the `fork` table. -/
structure ForkRecord where
  parentID : Nat
  childIDs : List Nat
deriving DecidableEq, Repr

/-- The errors the fork layer can raise: `recordNotFound` for the thrown
`Error('forkRecord not found')` / `fork parent not found` / `fork record
not found`; `dbiNotFound` for LMDB's `MDB_NOTFOUND` when `env.openDbi`
is called without `create` on a missing table; `poolFull` for
`Error('fork pool is full')`; `fuelOut` marks exhaustion of the explicit
recursion bound of the embedding (proved unreachable where it matters). -/
inductive DBError where
  | recordNotFound
  | dbiNotFound
  | poolFull
  | fuelOut
deriving DecidableEq, Repr

/-- `DropResult = 'not_exist' | 'ok'`. -/
inductive DropResult where
  | not_exist
  | ok
deriving DecidableEq, Repr

/-- The value returned by `migrateFork`: which merge direction ran. -/
inductive Direction where
  | child_to_self
  | self_to_child
deriving DecidableEq, Repr

/-- The durable state one read-write transaction operates on: the fork
registry (`loadForkRecord`/`saveForkRecord`/`delForkRecord` target
`records`) and the per-fork private tables (`tables i = none` means the
dbi named `fork:<i>` does not exist). -/
structure DBState where
  records : Nat → Option ForkRecord
  tables : Nat → Option Table

/-- `saveForkRecord` / `delForkRecord`: update the registry at one id. -/
def setRecord (s : DBState) (i : Nat) (r : Option ForkRecord) : DBState :=
  ⟨fun j => if j = i then r else s.records j, s.tables⟩

/-- Create, replace or drop the private table of one fork id. -/
def setTable (s : DBState) (i : Nat) (t : Option Table) : DBState :=
  ⟨s.records, fun j => if j = i then t else s.tables j⟩

/-- Build a concrete state from association lists (for concrete runs). -/
def mkState (rs : List (Nat × ForkRecord)) (ts : List (Nat × Table)) : DBState :=
  ⟨fun i => (rs.find? (fun p => p.1 = i)).map (fun p => p.2),
   fun i => (ts.find? (fun p => p.1 = i)).map (fun p => p.2)⟩

/-! ## Fork allocation (`fork(txn, parentID)`) -/

/-- The bounded id space modulus `65536 - 10` from the allocation loop. -/
def POOL : Nat := 65536 - 10

/-- The candidate-id iteration of the allocation loop: the next candidate
after `c` is `(c + 1) % POOL`. -/
def iterFrom (c : Nat) : Nat → Nat
  | 0 => c
  | k + 1 => (iterFrom c k + 1) % POOL

/-- The probe sequence of `fork(txn, p)`: it starts at `p + 1` and then
steps by `(· + 1) % POOL`. -/
def probeAt (p : Nat) (k : Nat) : Nat :=
  iterFrom (p + 1) k

/-- The `for` loop of `fork(txn, parentID)`: try candidate ids until one
has no registry record; throw `'fork pool is full'` when the probe comes
back to `parentID` while it is still occupied.  `fuel` bounds the
recursion of the embedding. -/
def allocLoop (occ : Nat → Bool) (p : Nat) : Nat → Nat → Except DBError Nat
  | 0, _ => Except.error DBError.fuelOut
  | fuel + 1, c =>
    if occ c then
      if c = p then Except.error DBError.poolFull
      else allocLoop occ p fuel ((c + 1) % POOL)
    else Except.ok c

/-- The cyclic distance from candidate `c` down to `p` along the probe
order; the termination measure of the allocation loop. -/
def cdist (p c : Nat) : Nat := if c ≤ p then p - c else p + POOL - c

/-- `fork(txn, parentID)`: allocate the first free child id by linear
probing from `parentID + 1`, require the parent's record (throwing
`fork parent not found` otherwise), store the child record
`{parentID, childIDs: []}`, append the child id to the parent's
`childIDs`, and create the child's table (`openDbi` with `create: true`
keeps an existing table). -/
def forkOp (s : DBState) (p : Nat) : Except DBError (Nat × DBState) :=
  match allocLoop (fun j => (s.records j).isSome) p (2 * POOL) (p + 1) with
  | Except.error e => Except.error e
  | Except.ok c =>
    match s.records p with
    | none => Except.error DBError.recordNotFound
    | some pr =>
      let s1 := setRecord s c (some ⟨p, []⟩)
      let s2 := setRecord s1 p (some ⟨pr.parentID, pr.childIDs ++ [c]⟩)
      let s3 := setTable s2 c (some ((s.tables c).getD []))
      Except.ok (c, s3)

/-! ## The merge engine (`migrateFork`) -/

/-- The child→self copy loop of `migrateFork`: for each key of the child's
table, a `null` value would clear any self override (dead in practice,
since every listed key has a value) and otherwise the child's value is
written over self's. -/
def childToSelfTable (childT selfT : Table) : Table :=
  (tkeys childT).foldl
    (fun acc k =>
      match tlookup childT k with
      | none => if (tkeys selfT).contains k then tdel acc k else acc
      | some v => tput acc k v)
    selfT

/-- The self→child copy loop of `migrateFork`: keys the child already has
are skipped (the child's own write wins); other keys of self's table are
copied into the child's table. -/
def selfToChildTable (selfT childT : Table) : Table :=
  (tkeys selfT).foldl
    (fun acc k =>
      if (tkeys childT).contains k then acc
      else
        match tlookup selfT k with
        | none => if (tkeys childT).contains k then tdel acc k else acc
        | some v => tput acc k v)
    childT

/-- The grandchild loop of the child→self branch: load each grandchild's
record (throwing `forkRecord not found` when missing) and rewrite its
`parentID` to self. -/
def relinkGrandChildren (selfForkId : Nat) : DBState → List Nat → Except DBError DBState
  | s, [] => Except.ok s
  | s, g :: gs =>
    match s.records g with
    | none => Except.error DBError.recordNotFound
    | some gr =>
        relinkGrandChildren selfForkId (setRecord s g (some ⟨selfForkId, gr.childIDs⟩)) gs

/-- `migrateFork({txn, selfForkId, selfDbi, childForkId})` as called from
`drop`: load both records and both tables, compute
`selfCost = |childKeys| + |child.childIDs|` (the comment reads: cost if
copy from child to self) and `childCost = |selfKeys| + 1` (cost if copy
from self to child), and branch on `selfCost > childCost` into the
child→self merge (copy keys, relink grandchildren, drop the child's
table) or the self→child merge (copy keys, replace self by child in the
parent's `childIDs` when `selfForkRecord.parentID !== 0`, drop self's
table). -/
def migrateFork (s : DBState) (selfForkId childForkId : Nat) :
    Except DBError (Direction × DBState) :=
  match s.records selfForkId with
  | none => Except.error DBError.recordNotFound
  | some selfForkRecord =>
  match s.records childForkId with
  | none => Except.error DBError.recordNotFound
  | some childForkRecord =>
  match s.tables selfForkId with
  | none => Except.error DBError.dbiNotFound
  | some selfT =>
  match s.tables childForkId with
  | none => Except.error DBError.dbiNotFound
  | some childT =>
  let selfKeys := tkeys selfT
  let childKeys := tkeys childT
  let selfCost := childKeys.length + childForkRecord.childIDs.length
  let childCost := selfKeys.length + 1
  if selfCost > childCost then
    let s1 := setTable s selfForkId (some (childToSelfTable childT selfT))
    match relinkGrandChildren selfForkId s1 childForkRecord.childIDs with
    | Except.error e => Except.error e
    | Except.ok s2 => Except.ok (Direction.child_to_self, setTable s2 childForkId none)
  else
    let s1 := setTable s childForkId (some (selfToChildTable selfT childT))
    if selfForkRecord.parentID = 0 then
      Except.ok (Direction.self_to_child, setTable s1 selfForkId none)
    else
      match s1.records selfForkRecord.parentID with
      | none => Except.error DBError.recordNotFound
      | some pr =>
        let s2 := setRecord s1 selfForkRecord.parentID
          (some ⟨pr.parentID,
                 pr.childIDs.map (fun x => if x = selfForkId then childForkId else x)⟩)
        Except.ok (Direction.self_to_child, setTable s2 selfForkId none)

/-! ## Drop (`ForkTxn.drop` and `dropFork`) -/

/-- `ForkTxn.drop()` of the full revision: a missing record yields
`'not_exist'`; no child deletes the record (`delForkRecord`) and the
table (`dbi.drop`); exactly one child runs `migrateFork`; two or more
children leave everything in place and return `'ok'`. -/
def dropOp (s : DBState) (forkId : Nat) : Except DBError (DropResult × DBState) :=
  match s.records forkId with
  | none => Except.ok (DropResult.not_exist, s)
  | some fork =>
    match fork.childIDs with
    | [] => Except.ok (DropResult.ok, setTable (setRecord s forkId none) forkId none)
    | [c] =>
      match migrateFork s forkId c with
      | Except.error e => Except.error e
      | Except.ok (_, s1) => Except.ok (DropResult.ok, s1)
    | _ => Except.ok (DropResult.ok, s)

/-! ## The lookup chain (`wrapTxn` construction and `getString`) -/

/-- The ancestor chain resolved by `wrapTxn`: `loadFork` opens each
fork's table (`MDB_NOTFOUND` when absent) and `loadParent` follows
`parentID` through the registry, stopping at the root id 0.  `none`
models a thrown construction error (or a cyclic registry outrunning
`fuel`). -/
def resolve (s : DBState) : Nat → Nat → Option (List Nat)
  | 0, _ => none
  | fuel + 1, i =>
    match s.tables i with
    | none => none
    | some _ =>
      if i = 0 then some [0]
      else
        match s.records i with
        | none => none
        | some r => (resolve s fuel r.parentID).map (fun ch => i :: ch)

/-- The read delegation of `getString`: the current fork's table is
checked first and a `null` result delegates to the parent context,
recursively along the resolved chain. -/
def getAlong (s : DBState) (k : String) : List Nat → Option String
  | [] => none
  | i :: rest =>
    match (s.tables i).bind (fun t => tlookup t k) with
    | some v => some v
    | none => getAlong s k rest

/-- `ctx.getString(key)` on the context of fork `i`: the outer `none`
models a failed context construction, the inner `Option` is the nullable
read result. -/
def getStringOp (s : DBState) (fuel i : Nat) (k : String) : Option (Option String) :=
  (resolve s fuel i).map (fun ch => getAlong s k ch)

/-- `ctx.putString(key, value)`: write to the current fork's own table. -/
def putStringOp (s : DBState) (i : Nat) (k v : String) : DBState :=
  setTable s i ((s.tables i).map (fun t => tput t k v))

/-- `ctx.del(key)`: delete from the current fork's own table. -/
def delOp (s : DBState) (i : Nat) (k : String) : DBState :=
  setTable s i ((s.tables i).map (fun t => tdel t k))

/-- `dropFork(txn, forkId)` of the full revision: `loadFork` throws
`MDB_NOTFOUND` when the fork's table is missing, which is caught and
turned into `'not_exist'`; errors thrown while wrapping the transaction
(missing ancestor records or tables) propagate; otherwise the wrapped
`drop` runs. -/
def dropForkOp (s : DBState) (fuel forkId : Nat) : Except DBError (DropResult × DBState) :=
  match s.tables forkId with
  | none => Except.ok (DropResult.not_exist, s)
  | some _ =>
    match resolve s fuel forkId with
    | none => Except.error DBError.recordNotFound
    | some _ => dropOp s forkId

/-! ## Spec-side definitions used for comparison -/

/-- Modelled from the spec: `cost(child→self) = |child.keys| + |child.childIds|`
(copy child's own keys into self; relink every grandchild). -/
def costChildToSelf (s : DBState) (childId : Nat) : Option Nat :=
  (s.tables childId).bind fun ct =>
    (s.records childId).map fun cr => (tkeys ct).length + cr.childIDs.length

/-- Modelled from the spec: `cost(self→child) = |self.keys| + 1`
(copy self's own keys into child; fix one parent `childIds` entry). -/
def costSelfToChild (s : DBState) (selfId : Nat) : Option Nat :=
  (s.tables selfId).map fun st => (tkeys st).length + 1

/-- Does fork `j` hold key `k` in its own table? -/
def holdsKey (s : DBState) (k : String) (j : Nat) : Bool :=
  ((s.tables j).bind (fun t => tlookup t k)).isSome

/-- Modelled from the spec: the first fork along the chain whose own
table holds the key wins; no holder means a null result. -/
def specGet (s : DBState) (k : String) (ch : List Nat) : Option String :=
  match ch.find? (holdsKey s k) with
  | some j => (s.tables j).bind (fun t => tlookup t k)
  | none => none

/-- The number of times fork `i` occurs in its parent's `childIDs`
(the multiplicity the registry invariant constrains to one). -/
def childLinkCount (s : DBState) (i : Nat) : Option Nat :=
  (s.records i).bind fun r =>
    (s.records r.parentID).map fun pr => pr.childIDs.count i

/-- `loadFork(forkId)` opens the fork's table without `create`, so it
fails with `MDB_NOTFOUND` exactly when the table is absent. -/
def loadForkDbiFails (s : DBState) (i : Nat) : Bool :=
  (s.tables i).isNone

/-! ## Concrete states used for concrete runs of the engine -/

/-- Root 0 with child 1; fork 1 has one child 2 and two own keys, fork 2
has no keys and no children. -/
def exA : DBState :=
  mkState [(0, ⟨0, [1]⟩), (1, ⟨0, [2]⟩), (2, ⟨1, []⟩)]
    [(0, []), (1, [("a", "1"), ("b", "2")]), (2, [])]

/-- A chain 0 → 1 → 2 → 3 with empty tables. -/
def exB : DBState :=
  mkState [(0, ⟨0, [1]⟩), (1, ⟨0, [2]⟩), (2, ⟨1, [3]⟩), (3, ⟨2, []⟩)]
    [(0, []), (1, []), (2, []), (3, [])]

/-- A chain 0 → 1 → 2 with empty tables. -/
def exC : DBState :=
  mkState [(0, ⟨0, [1]⟩), (1, ⟨0, [2]⟩), (2, ⟨1, []⟩)]
    [(0, []), (1, []), (2, [])]

/-- A chain 0 → 1 → 2 where the leaf fork 2 owns two keys. -/
def exD : DBState :=
  mkState [(0, ⟨0, [1]⟩), (1, ⟨0, [2]⟩), (2, ⟨1, []⟩)]
    [(0, []), (1, []), (2, [("x", "1"), ("y", "2")])]

/-- A chain 0 → 1 → 2 where the root owns key `foo`, fork 1 owns
nothing and fork 2 owns only key `baz`. -/
def exE : DBState :=
  mkState [(0, ⟨0, [1]⟩), (1, ⟨0, [2]⟩), (2, ⟨1, []⟩)]
    [(0, [("foo", "bar")]), (1, []), (2, [("baz", "qux")])]

/-- A state in which every id of the bounded pool is occupied. -/
def exFull : DBState :=
  ⟨fun i => if i ≤ POOL then some ⟨0, []⟩ else none, fun _ => some []⟩

/-! ## Helper lemmas -/

/-- `putString` overwrites: looking up the written key finds the new value. -/
theorem tlookup_tput (t : Table) (k v : String) : tlookup (tput t k v) k = some v := by
  simp [tput, tlookup]

/-- `del` removes: looking up a deleted key finds nothing. -/
theorem tlookup_tdel (t : Table) (k : String) : tlookup (tdel t k) k = none := by
  induction t with
  | nil => rfl
  | cons kv rest ih =>
    obtain ⟨k1, v⟩ := kv
    by_cases h : k1 = k <;> simp [tdel, h, tlookup, ih]

/-- The recursive read delegation equals the spec's description: the first
chain member holding the key wins. -/
theorem getAlong_eq_specGet (s : DBState) (k : String) :
    ∀ ch : List Nat, getAlong s k ch = specGet s k ch := by
  intro ch
  induction ch with
  | nil => rfl
  | cons i rest ih =>
    rcases hv : (s.tables i).bind (fun t => tlookup t k) with _ | v
    · have hh : ¬ holdsKey s k i = true := by simp [holdsKey, hv]
      have h1 : getAlong s k (i :: rest) = getAlong s k rest := by
        simp only [getAlong, hv]
      have h2 : specGet s k (i :: rest) = specGet s k rest := by
        simp only [specGet, List.find?_cons_of_neg _ hh]
      rw [h1, h2, ih]
    · have hh : holdsKey s k i = true := by simp [holdsKey, hv]
      have h1 : getAlong s k (i :: rest) = some v := by
        simp only [getAlong, hv]
      have h2 : specGet s k (i :: rest) = some v := by
        simp only [specGet, List.find?_cons_of_pos _ hh]
        exact hv
      rw [h1, h2]

/-- A successfully resolved chain starts with the wrapped fork itself,
whose table exists. -/
theorem resolve_shape (s : DBState) (fuel i : Nat) (ch : List Nat)
    (h : resolve s fuel i = some ch) :
    ∃ rest t, ch = i :: rest ∧ s.tables i = some t := by
  cases fuel with
  | zero => simp [resolve] at h
  | succ f =>
    cases ht : s.tables i with
    | none => simp [resolve, ht] at h
    | some t =>
      by_cases hi : i = 0
      · subst hi
        have hch : ch = [0] := by
          simp [resolve, ht] at h
          exact h.symm
        subst hch
        exact ⟨[], t, rfl, rfl⟩
      · cases hr : s.records i with
        | none => simp [resolve, ht, hi, hr] at h
        | some r =>
          simp only [resolve, ht, hi, if_false, Option.map_eq_some', hr] at h
          obtain ⟨ch1, hch1, hcons⟩ := h
          subst hcons
          exact ⟨ch1, t, rfl, rfl⟩

/-- Chain resolution only looks at the registry and at table existence,
so it is stable under changes of table contents. -/
theorem resolve_congr (s s1 : DBState) (hrec : ∀ j, s1.records j = s.records j)
    (htab : ∀ j, (s1.tables j).isSome = (s.tables j).isSome) :
    ∀ fuel i, resolve s1 fuel i = resolve s fuel i := by
  intro fuel
  induction fuel with
  | zero => intro i; rfl
  | succ f ih =>
    intro i
    cases ht : s.tables i with
    | none =>
      have ht1 : s1.tables i = none := by
        have h2 := htab i
        rw [ht] at h2
        simpa using h2
      simp [resolve, ht, ht1]
    | some t =>
      obtain ⟨t1, ht1⟩ : ∃ t1, s1.tables i = some t1 := by
        have h2 := htab i
        rw [ht] at h2
        exact Option.isSome_iff_exists.mp (by simpa using h2)
      by_cases hi : i = 0
      · subst hi
        simp [resolve, ht, ht1]
      · cases hr : s.records i with
        | none => simp [resolve, ht, ht1, hi, hrec i, hr]
        | some r => simp [resolve, ht, ht1, hi, hrec i, hr, ih]

/-- Reading along a chain only consults the tables of chain members. -/
theorem getAlong_congr (s s1 : DBState) (k : String) :
    ∀ ch : List Nat, (∀ j ∈ ch, s1.tables j = s.tables j) →
      getAlong s1 k ch = getAlong s k ch := by
  intro ch
  induction ch with
  | nil => intro _; rfl
  | cons i rest ih =>
    intro h
    have hi := h i (by simp)
    unfold getAlong
    rw [hi]
    cases (s.tables i).bind (fun t => tlookup t k) <;>
      simp [ih (fun j hj => h j (by simp [hj]))]

/-- A chain containing a holder of the key never reads a null result. -/
theorem getAlong_isSome_of_mem (s : DBState) (k : String) :
    ∀ ch : List Nat, ∀ j ∈ ch, holdsKey s k j = true → (getAlong s k ch).isSome = true := by
  intro ch
  induction ch with
  | nil => intro j hj; simp at hj
  | cons a rest ih =>
    intro j hj hhj
    cases hv : (s.tables a).bind (fun u => tlookup u k) with
    | some w => simp [getAlong, hv]
    | none =>
      simp only [getAlong, hv]
      rcases List.mem_cons.mp hj with hja | hja
      · subst hja
        simp [holdsKey, hv] at hhj
      · exact ih j hja hhj

/-! ## The claims -/

/-- C1: the claim says the lower-cost merge direction is always executed.
At `exA`, fork 1 has exactly one child (fork 2); `cost(child→self) = 0`
(the child owns no keys and has no children) is strictly lower than
`cost(self→child) = 3` (self owns two keys), yet `migrateFork` — and
hence `drop` on fork 1 — executes the self→child direction: the
comparison `selfCost > childCost` selects the costlier branch. -/
theorem c1_merge_direction_inverted :
    exA.records 1 = some ⟨0, [2]⟩ ∧
    costChildToSelf exA 2 = some 0 ∧
    costSelfToChild exA 1 = some 3 ∧
    (migrateFork exA 1 2).map (fun r => r.1) = Except.ok Direction.self_to_child ∧
    (dropOp exA 1).map (fun r => r.1) = Except.ok DropResult.ok :=
  ⟨rfl, rfl, rfl, rfl, rfl⟩

/-- C2: the claim says every committed operation preserves "each
non-root registered fork occurs exactly once in its parent's childIDs".
In `exB` the invariant holds (each of forks 1, 2, 3 occurs once in its
parent's list), but the one-child merge-drop of fork 2 rewrites fork 1's
childIDs entry from 2 to 3 while leaving fork 2's registry record in
place, so afterwards fork 2 is a registered non-root fork occurring zero
times in its parent's childIDs. -/
theorem c2_merge_breaks_child_link_invariant :
    childLinkCount exB 1 = some 1 ∧
    childLinkCount exB 2 = some 1 ∧
    childLinkCount exB 3 = some 1 ∧
    (dropOp exB 2).map (fun r => (r.1, r.2.records 2, childLinkCount r.2 2)) =
      Except.ok (DropResult.ok, some ⟨1, [3]⟩, some 0) :=
  ⟨rfl, rfl, rfl, rfl⟩

/-- C3 counterexample: fork 1 is a non-root fork (its parent is the root,
fork 0) merged in the self→child direction, yet the occurrence of 1 in
fork 0's childIDs is not replaced by 2 — the rewrite is guarded by
`parentID !== 0`, so a root-parented self leaves the parent untouched. -/
theorem c3_root_parent_not_relinked :
    exC.records 1 = some ⟨0, [2]⟩ ∧
    (migrateFork exC 1 2).map (fun r => (r.1, r.2.records 0)) =
      Except.ok (Direction.self_to_child, some ⟨0, [1]⟩) :=
  ⟨rfl, rfl⟩

/-- C4: the claim says the losing fork's registry record is removed by a
one-child merge-drop.  In the self→child merge at `exC` the losing fork
is self (fork 1): its table is dropped but its registry record survives.
In the child→self merge at `exD` the losing fork is the child (fork 2):
its table is dropped but its registry record survives.  Neither branch
of `migrateFork` calls `delForkRecord`. -/
theorem c4_losing_record_persists :
    (migrateFork exC 1 2).map (fun r => (r.1, r.2.records 1, (r.2.tables 1).isSome)) =
      Except.ok (Direction.self_to_child, some ⟨0, [2]⟩, false) ∧
    (migrateFork exD 1 2).map (fun r => (r.1, r.2.records 2, (r.2.tables 2).isSome)) =
      Except.ok (Direction.child_to_self, some ⟨1, []⟩, false) :=
  ⟨rfl, rfl⟩


/-- C3 (amended): in a self→child merge the parent's childIDs rewrite
from self's id to child's id happens exactly when `selfRecord.parentID`
is nonzero; when self's recorded parentID is 0 (its parent is the root)
the registry — the root's childIDs included — is left unchanged. -/
theorem c3_parent_relink (s : DBState) (selfId childId : Nat)
    (sr cr : ForkRecord) (st ct : Table)
    (h1 : s.records selfId = some sr) (h2 : s.records childId = some cr)
    (h3 : s.tables selfId = some st) (h4 : s.tables childId = some ct)
    (hdir : ¬ ((tkeys ct).length + cr.childIDs.length > (tkeys st).length + 1)) :
    (sr.parentID = 0 →
      ∃ s1, migrateFork s selfId childId = Except.ok (Direction.self_to_child, s1) ∧
        ∀ j, s1.records j = s.records j) ∧
    (∀ pr, sr.parentID ≠ 0 → s.records sr.parentID = some pr →
      ∃ s1, migrateFork s selfId childId = Except.ok (Direction.self_to_child, s1) ∧
        s1.records sr.parentID =
          some ⟨pr.parentID, pr.childIDs.map (fun x => if x = selfId then childId else x)⟩ ∧
        ∀ j, j ≠ sr.parentID → s1.records j = s.records j) := by
  constructor
  · intro hp0
    refine ⟨setTable (setTable s childId (some (selfToChildTable st ct))) selfId none,
      ?_, ?_⟩
    · simp [migrateFork, h1, h2, h3, h4, if_neg hdir, hp0]
    · intro j; simp [setTable]
  · intro pr hp0 hpr
    have hrec : (setTable s childId (some (selfToChildTable st ct))).records sr.parentID
        = some pr := by simpa [setTable] using hpr
    refine ⟨setTable
        (setRecord (setTable s childId (some (selfToChildTable st ct))) sr.parentID
          (some ⟨pr.parentID,
                 pr.childIDs.map (fun x => if x = selfId then childId else x)⟩))
        selfId none, ?_, ?_, ?_⟩
    · simp [migrateFork, h1, h2, h3, h4, if_neg hdir, hp0, hrec]
    · simp [setTable, setRecord]
    · intro j hj; simp [setTable, setRecord, hj]

/-- Witness for the amended C3: dropping fork 2 (one child 3, non-root
parent 1) in `exB` rewrites fork 1's childIDs from `[2]` to `[3]`. -/
theorem c3_parent_relink_witness :
    exB.records 2 = some ⟨1, [3]⟩ ∧
    ∃ s1, migrateFork exB 2 3 = Except.ok (Direction.self_to_child, s1) ∧
      s1.records 1 = some ⟨0, [3]⟩ ∧
      ∀ j, j ≠ 1 → s1.records j = exB.records j :=
  ⟨rfl, (c3_parent_relink exB 2 3 ⟨1, [3]⟩ ⟨2, []⟩ [] [] rfl rfl rfl rfl
    (by decide)).2 ⟨0, [2]⟩ (by decide) rfl⟩

/-- C5: `drop` on a registered childless fork returns `'ok'`, deletes
both the fork's registry record and its table (so a later `loadFork` of
that id fails with `MDB_NOTFOUND`), and leaves every other fork's record
and table untouched. -/
theorem c5_drop_childless (s : DBState) (i : Nat) (r : ForkRecord)
    (h1 : s.records i = some r) (h2 : r.childIDs = []) :
    ∃ s1, dropOp s i = Except.ok (DropResult.ok, s1) ∧
      s1.records i = none ∧ s1.tables i = none ∧
      loadForkDbiFails s1 i = true ∧
      ∀ j, j ≠ i → s1.records j = s.records j ∧ s1.tables j = s.tables j := by
  refine ⟨setTable (setRecord s i none) i none, ?_, ?_, ?_, ?_, ?_⟩
  · simp [dropOp, h1, h2]
  · simp [setTable, setRecord]
  · simp [setTable, setRecord]
  · simp [loadForkDbiFails, setTable, setRecord]
  · intro j hj; simp [setTable, setRecord, hj]

/-- Witness for C5: dropping the childless fork 3 of `exB`. -/
theorem c5_drop_childless_witness :
    exB.records 3 = some ⟨2, []⟩ ∧
    ∃ s1, dropOp exB 3 = Except.ok (DropResult.ok, s1) ∧
      s1.records 3 = none ∧ s1.tables 3 = none ∧
      loadForkDbiFails s1 3 = true ∧
      ∀ j, j ≠ 3 → s1.records j = exB.records j ∧ s1.tables j = exB.tables j :=
  ⟨rfl, c5_drop_childless exB 3 ⟨2, []⟩ rfl rfl⟩

/-- C6: for a fork id with no registry record, `drop` returns
`'not_exist'` without error and without touching the state, and so does
a second call; `dropFork` does the same for a fully dropped id (record
and table both absent, as the committed operations leave it). -/
theorem c6_drop_absent_idempotent (s : DBState) (fuel i : Nat) (h : s.records i = none) :
    dropOp s i = Except.ok (DropResult.not_exist, s) ∧
    (dropOp s i).bind (fun r => dropOp r.2 i) = Except.ok (DropResult.not_exist, s) ∧
    (s.tables i = none →
      dropForkOp s fuel i = Except.ok (DropResult.not_exist, s) ∧
      (dropForkOp s fuel i).bind (fun r => dropForkOp r.2 fuel i) =
        Except.ok (DropResult.not_exist, s)) := by
  have h1 : dropOp s i = Except.ok (DropResult.not_exist, s) := by simp [dropOp, h]
  refine ⟨h1, ?_, ?_⟩
  · rw [h1]; simpa [Except.bind] using h1
  · intro ht
    have h2 : dropForkOp s fuel i = Except.ok (DropResult.not_exist, s) := by
      simp [dropForkOp, ht]
    exact ⟨h2, by rw [h2]; simpa [Except.bind] using h2⟩

/-- Witness for C6: id 9 has no record and no table in `exB`. -/
theorem c6_drop_absent_witness :
    exB.records 9 = none ∧ exB.tables 9 = none ∧
    dropOp exB 9 = Except.ok (DropResult.not_exist, exB) ∧
    dropForkOp exB 8 9 = Except.ok (DropResult.not_exist, exB) ∧
    (dropForkOp exB 8 9).bind (fun r => dropForkOp r.2 8 9) =
      Except.ok (DropResult.not_exist, exB) := by
  have h := c6_drop_absent_idempotent exB 8 9 rfl
  exact ⟨rfl, rfl, h.1, (h.2.2 rfl).1, (h.2.2 rfl).2⟩

/-- C7: on a resolved context, `get` equals the spec's nearest-first
walk of the ancestor chain — the current fork's table decides when it
holds the key, otherwise the chain's tail is consulted, a chain with no
holder yields a null result, and no error is possible. -/
theorem c7_get_walks_chain (s : DBState) (fuel i : Nat) (k : String) (ch : List Nat)
    (h : resolve s fuel i = some ch) :
    getStringOp s fuel i k = some (specGet s k ch) ∧
    (∃ rest t, ch = i :: rest ∧ s.tables i = some t ∧
      (∀ v, tlookup t k = some v → specGet s k ch = some v) ∧
      (tlookup t k = none → specGet s k ch = specGet s k rest)) ∧
    ((∀ j ∈ ch, holdsKey s k j = false) → getStringOp s fuel i k = some none) := by
  obtain ⟨rest, t, hch, ht⟩ := resolve_shape s fuel i ch h
  have hget : getStringOp s fuel i k = some (getAlong s k ch) := by
    simp [getStringOp, h]
  have heq := getAlong_eq_specGet s k ch
  refine ⟨by rw [hget, heq], ⟨rest, t, hch, ht, ?_, ?_⟩, ?_⟩
  · intro v hv
    subst hch
    have hh : holdsKey s k i = true := by simp [holdsKey, ht, hv]
    simp only [specGet, List.find?_cons_of_pos _ hh]
    simp [ht, hv]
  · intro hv
    subst hch
    have hh : ¬ holdsKey s k i = true := by simp [holdsKey, ht, hv]
    simp only [specGet, List.find?_cons_of_neg _ hh]
  · intro hall
    have hfind : ch.find? (holdsKey s k) = none :=
      List.find?_eq_none.mpr (fun j hj => by simp [hall j hj])
    rw [hget, heq]
    simp only [specGet, hfind]

/-- Witness for C7: reading `foo` through fork 2 of `exE` resolves the
chain `[2, 1, 0]` and inherits the root's value. -/
theorem c7_get_walks_chain_witness :
    getStringOp exE 5 2 "foo" = some (specGet exE "foo" [2, 1, 0]) ∧
    (∃ rest t, ([2, 1, 0] : List Nat) = 2 :: rest ∧ exE.tables 2 = some t ∧
      (∀ v, tlookup t "foo" = some v → specGet exE "foo" [2, 1, 0] = some v) ∧
      (tlookup t "foo" = none → specGet exE "foo" [2, 1, 0] = specGet exE "foo" rest)) ∧
    ((∀ j ∈ ([2, 1, 0] : List Nat), holdsKey exE "foo" j = false) →
      getStringOp exE 5 2 "foo" = some none) :=
  c7_get_walks_chain exE 5 2 "foo" [2, 1, 0] rfl

/-- C8: `put` and `del` touch only the current fork's own table, never
the registry or an ancestor's table; after a child writes, the child
reads the new value while the reads along its parent chain are
unchanged. -/
theorem c8_writes_stay_local (s : DBState) (c : Nat) (k v : String) (t : Table)
    (fuel : Nat) (ch : List Nat)
    (ht : s.tables c = some t)
    (hch : resolve s fuel c = some ch)
    (hnc : c ∉ ch.tail) :
    (∀ j, j ≠ c → (putStringOp s c k v).tables j = s.tables j ∧
      (delOp s c k).tables j = s.tables j) ∧
    (∀ j, (putStringOp s c k v).records j = s.records j ∧
      (delOp s c k).records j = s.records j) ∧
    getStringOp (putStringOp s c k v) fuel c k = some (some v) ∧
    getAlong (putStringOp s c k v) k ch.tail = getAlong s k ch.tail := by
  have hframe : ∀ j, j ≠ c → (putStringOp s c k v).tables j = s.tables j ∧
      (delOp s c k).tables j = s.tables j := by
    intro j hj
    constructor <;> simp [putStringOp, delOp, setTable, hj]
  have hrec : ∀ j, (putStringOp s c k v).records j = s.records j ∧
      (delOp s c k).records j = s.records j := by
    intro j
    constructor <;> simp [putStringOp, delOp, setTable]
  have htab : ∀ j, ((putStringOp s c k v).tables j).isSome = (s.tables j).isSome := by
    intro j
    by_cases hj : j = c
    · subst hj
      simp [putStringOp, setTable, ht]
    · simp [putStringOp, setTable, hj]
  have hres : resolve (putStringOp s c k v) fuel c = resolve s fuel c :=
    resolve_congr s (putStringOp s c k v) (fun j => (hrec j).1) htab fuel c
  obtain ⟨rest, t0, hcons, ht0⟩ := resolve_shape s fuel c ch hch
  have ht1 : (putStringOp s c k v).tables c = some (tput t k v) := by
    simp [putStringOp, setTable, ht]
  have htail : getAlong (putStringOp s c k v) k ch.tail = getAlong s k ch.tail := by
    apply getAlong_congr
    intro j hj
    exact (hframe j (fun he => hnc (he ▸ hj))).1
  refine ⟨hframe, hrec, ?_, htail⟩
  have hgets : getStringOp (putStringOp s c k v) fuel c k =
      some (getAlong (putStringOp s c k v) k ch) := by
    simp [getStringOp, hres, hch]
  rw [hgets, hcons]
  have hhit : getAlong (putStringOp s c k v) k (c :: rest) = some v := by
    simp [getAlong, ht1, tlookup_tput]
  rw [hhit]

/-- Witness for C8: fork 2 of `exE` writes `foo`, reads it back, and the
reads along its parent chain `[1, 0]` are unchanged. -/
theorem c8_writes_stay_local_witness :
    (∀ j, j ≠ 2 → (putStringOp exE 2 "foo" "bar2").tables j = exE.tables j ∧
      (delOp exE 2 "foo").tables j = exE.tables j) ∧
    (∀ j, (putStringOp exE 2 "foo" "bar2").records j = exE.records j ∧
      (delOp exE 2 "foo").records j = exE.records j) ∧
    getStringOp (putStringOp exE 2 "foo" "bar2") 5 2 "foo" = some (some "bar2") ∧
    getAlong (putStringOp exE 2 "foo" "bar2") "foo" ([2, 1, 0] : List Nat).tail =
      getAlong exE "foo" ([2, 1, 0] : List Nat).tail :=
  c8_writes_stay_local exE 2 "foo" "bar2" [("baz", "qux")] 5 [2, 1, 0] rfl rfl (by decide)

/-- C10: `del` on the current fork removes only the local override, so a
subsequent `get` in the same transaction returns the nearest ancestor's
value (non-null whenever some strict ancestor holds the key) — there is
no tombstone at the put/del interface. -/
theorem c10_del_uncovers_ancestor (s : DBState) (c : Nat) (k : String) (t : Table)
    (fuel : Nat) (ch : List Nat)
    (ht : s.tables c = some t)
    (hch : resolve s fuel c = some ch)
    (hnc : c ∉ ch.tail)
    (hanc : ∃ j ∈ ch.tail, holdsKey s k j = true) :
    getStringOp (delOp s c k) fuel c k = some (specGet s k ch.tail) ∧
    (specGet s k ch.tail).isSome = true ∧
    (∀ j, j ≠ c → (delOp s c k).tables j = s.tables j) ∧
    (∀ j, (delOp s c k).records j = s.records j) := by
  have hframe : ∀ j, j ≠ c → (delOp s c k).tables j = s.tables j := by
    intro j hj
    simp [delOp, setTable, hj]
  have hrec : ∀ j, (delOp s c k).records j = s.records j := by
    intro j
    simp [delOp, setTable]
  have htab : ∀ j, ((delOp s c k).tables j).isSome = (s.tables j).isSome := by
    intro j
    by_cases hj : j = c
    · subst hj
      simp [delOp, setTable, ht]
    · simp [delOp, setTable, hj]
  have hres : resolve (delOp s c k) fuel c = resolve s fuel c :=
    resolve_congr s (delOp s c k) hrec htab fuel c
  obtain ⟨rest, t0, hcons, ht0⟩ := resolve_shape s fuel c ch hch
  subst hcons
  simp only [List.tail_cons] at hnc hanc ⊢
  have ht1 : (delOp s c k).tables c = some (tdel t k) := by
    simp [delOp, setTable, ht]
  have htail : getAlong (delOp s c k) k rest = getAlong s k rest := by
    apply getAlong_congr
    intro j hj
    exact hframe j (fun he => hnc (he ▸ hj))
  have hsome : (specGet s k rest).isSome = true := by
    obtain ⟨j, hj, hhj⟩ := hanc
    rw [← getAlong_eq_specGet]
    exact getAlong_isSome_of_mem s k rest j hj hhj
  refine ⟨?_, hsome, hframe, hrec⟩
  have hgets : getStringOp (delOp s c k) fuel c k =
      some (getAlong (delOp s c k) k (c :: rest)) := by
    simp [getStringOp, hres, hch]
  rw [hgets]
  have hstep : getAlong (delOp s c k) k (c :: rest) = getAlong (delOp s c k) k rest := by
    simp [getAlong, ht1, tlookup_tdel]
  rw [hstep, htail, getAlong_eq_specGet]

/-- Witness for C10: fork 2 of `exE` deletes `foo` locally and still
reads the root's value through the chain. -/
theorem c10_del_uncovers_ancestor_witness :
    getStringOp (delOp exE 2 "foo") 5 2 "foo" =
      some (specGet exE "foo" ([2, 1, 0] : List Nat).tail) ∧
    (specGet exE "foo" ([2, 1, 0] : List Nat).tail).isSome = true ∧
    (∀ j, j ≠ 2 → (delOp exE 2 "foo").tables j = exE.tables j) ∧
    (∀ j, (delOp exE 2 "foo").records j = exE.records j) :=
  c10_del_uncovers_ancestor exE 2 "foo" [("baz", "qux")] 5 [2, 1, 0] rfl rfl (by decide)
    ⟨0, by decide, rfl⟩



/-- One probe step strictly decreases the cyclic distance to `p`. -/
theorem cdist_step (p c : Nat) (hp : p < POOL) (hc : c < POOL) (hne : c ≠ p) :
    cdist p ((c + 1) % POOL) < cdist p c := by
  rcases Nat.lt_or_ge (c + 1) POOL with h | h
  · rw [Nat.mod_eq_of_lt h]
    unfold cdist
    split_ifs <;> omega
  · have hc1 : c + 1 = POOL := by omega
    rw [hc1, Nat.mod_self]
    unfold cdist
    split_ifs <;> omega

/-- With the probe inside the pool and enough fuel, the embedding's
fuel bound is never hit: the loop exits at the latest on reaching `p`. -/
theorem allocLoop_ne_fuelOut (occ : Nat → Bool) (p : Nat) (hp : p < POOL) :
    ∀ fuel c, c < POOL → cdist p c < fuel →
      allocLoop occ p fuel c ≠ Except.error DBError.fuelOut := by
  intro fuel
  induction fuel with
  | zero => intro c hc h; omega
  | succ f ih =>
    intro c hc h
    simp only [allocLoop]
    cases hocc : occ c with
    | false => simp
    | true =>
      by_cases hcp : c = p
      · simp [hcp]
      · simp only [if_true, if_neg hcp]
        exact ih ((c + 1) % POOL) (Nat.mod_lt _ (by decide))
          (by have := cdist_step p c hp hc hcp; omega)

/-- The allocation loop only fails by fuel exhaustion or a full pool. -/
theorem allocLoop_error_cases (occ : Nat → Bool) (p : Nat) :
    ∀ fuel c e, allocLoop occ p fuel c = Except.error e →
      e = DBError.fuelOut ∨ e = DBError.poolFull := by
  intro fuel
  induction fuel with
  | zero =>
    intro c e h
    simp only [allocLoop] at h
    exact Or.inl (Except.error.inj h).symm
  | succ f ih =>
    intro c e h
    simp only [allocLoop] at h
    cases hocc : occ c with
    | false => rw [hocc] at h; simp at h
    | true =>
      rw [hocc] at h
      by_cases hcp : c = p
      · rw [if_pos hcp] at h
        simp at h
        exact Or.inr h.symm
      · rw [if_neg hcp] at h
        simp at h
        exact ih _ _ h

/-- The pool-full error requires the probe to reach an occupied `p`. -/
theorem allocLoop_no_poolFull (occ : Nat → Bool) (p : Nat) (hop : occ p = false) :
    ∀ fuel c, allocLoop occ p fuel c ≠ Except.error DBError.poolFull := by
  intro fuel
  induction fuel with
  | zero => intro c; simp [allocLoop]
  | succ f ih =>
    intro c
    simp only [allocLoop]
    cases hocc : occ c with
    | false => simp
    | true =>
      by_cases hcp : c = p
      · subst hcp
        rw [hop] at hocc
        cases hocc
      · simp only [if_true, if_neg hcp]
        exact ih _

/-- With every pool id occupied the loop never finds a free id. -/
theorem allocLoop_no_ok_of_all (occ : Nat → Bool) (p : Nat)
    (hall : ∀ i, i ≤ POOL → occ i = true) :
    ∀ fuel c, c ≤ POOL → ∀ c1, allocLoop occ p fuel c ≠ Except.ok c1 := by
  intro fuel
  induction fuel with
  | zero => intro c hc c1; simp [allocLoop]
  | succ f ih =>
    intro c hc c1
    simp only [allocLoop, hall c hc, if_true]
    by_cases hcp : c = p
    · simp [hcp]
    · simp only [if_neg hcp]
      exact ih _ (Nat.le_of_lt (Nat.mod_lt _ (by decide))) _

/-- Shifting the start of the candidate iteration by one step. -/
theorem iterFrom_shift (c : Nat) : ∀ k, iterFrom ((c + 1) % POOL) k = iterFrom c (k + 1) := by
  intro k
  induction k with
  | zero => rfl
  | succ n ih => simp only [iterFrom, ih]

/-- A successful probe returns the first record-free candidate: it is
reached by iterating the step, every earlier candidate being occupied. -/
theorem allocLoop_ok_spec (occ : Nat → Bool) (p : Nat) :
    ∀ fuel c c1, allocLoop occ p fuel c = Except.ok c1 →
      occ c1 = false ∧
        ∃ k, c1 = iterFrom c k ∧ ∀ j, j < k → occ (iterFrom c j) = true := by
  intro fuel
  induction fuel with
  | zero => intro c c1 h; simp [allocLoop] at h
  | succ f ih =>
    intro c c1 h
    simp only [allocLoop] at h
    cases hocc : occ c with
    | false =>
      rw [hocc] at h
      simp at h
      subst h
      exact ⟨hocc, 0, rfl, fun j hj => absurd hj (Nat.not_lt_zero j)⟩
    | true =>
      rw [hocc] at h
      by_cases hcp : c = p
      · rw [if_pos hcp] at h
        simp at h
      · rw [if_neg hcp] at h
        simp at h
        obtain ⟨h1, k, hk, hprev⟩ := ih _ _ h
        refine ⟨h1, k + 1, ?_, ?_⟩
        · rw [hk, iterFrom_shift]
        · intro j hj
          cases j with
          | zero => exact hocc
          | succ n =>
            have hn := hprev n (by omega)
            rw [iterFrom_shift] at hn
            exact hn

/-- Unfolding equation of the allocation loop. -/
theorem allocLoop_succ (occ : Nat → Bool) (p fuel c : Nat) :
    allocLoop occ p (fuel + 1) c =
      if occ c then
        if c = p then Except.error DBError.poolFull
        else allocLoop occ p fuel ((c + 1) % POOL)
      else Except.ok c := rfl

/-- The concrete fuel `2 * POOL` used by `forkOp` is always enough. -/
theorem allocLoop_top_ne_fuelOut (occ : Nat → Bool) (p : Nat) (hp : p < POOL) :
    allocLoop occ p (2 * POOL) (p + 1) ≠ Except.error DBError.fuelOut := by
  have hP : POOL = 65526 := rfl
  by_cases h : p + 1 < POOL
  · refine allocLoop_ne_fuelOut occ p hp (2 * POOL) (p + 1) h ?_
    unfold cdist
    split_ifs <;> omega
  · have hp1 : p + 1 = POOL := by omega
    have h2 : 2 * POOL = (2 * POOL - 1) + 1 := by omega
    rw [h2, allocLoop_succ]
    cases hc : occ (p + 1) with
    | false => simp [hc]
    | true =>
      have hcp : ¬ (p + 1 = p) := by omega
      rw [if_pos rfl, if_neg hcp]
      have hone : (p + 1 + 1) % POOL = 1 := by
        rw [hp1, Nat.add_mod_left]
        decide
      rw [hone]
      refine allocLoop_ne_fuelOut occ p hp _ 1 (by decide) ?_
      unfold cdist
      split_ifs <;> omega

/-- C9: `fork(txn, parentID)` fails `fork parent not found` when the
parent's record is missing; a successful allocation returns the first
record-free id of the probe sequence `parentID+1, (parentID+2) % POOL, …`,
stores `{parentID, childIDs: []}` for the new id, appends it to the
parent's childIDs and changes no other record; with the whole pool
occupied it fails `fork pool is full`. -/
theorem c9_fork_allocation (s : DBState) (p : Nat) :
    (p < POOL → s.records p = none → forkOp s p = Except.error DBError.recordNotFound) ∧
    (∀ c s1, forkOp s p = Except.ok (c, s1) →
      s.records c = none ∧
      (∃ k, c = probeAt p k ∧ ∀ j, j < k → (s.records (probeAt p j)).isSome = true) ∧
      (∃ pr, s.records p = some pr ∧
        s1.records c = some ⟨p, []⟩ ∧
        s1.records p = some ⟨pr.parentID, pr.childIDs ++ [c]⟩ ∧
        ∀ j, j ≠ c → j ≠ p → s1.records j = s.records j)) ∧
    (p < POOL → (∀ i, i ≤ POOL → (s.records i).isSome = true) →
      forkOp s p = Except.error DBError.poolFull) := by
  refine ⟨?_, ?_, ?_⟩
  · intro hp hrec
    unfold forkOp
    cases halloc : allocLoop (fun j => (s.records j).isSome) p (2 * POOL) (p + 1) with
    | ok c => simp [hrec]
    | error e =>
      rcases allocLoop_error_cases _ p _ _ _ halloc with rfl | rfl
      · exact absurd halloc (allocLoop_top_ne_fuelOut _ p hp)
      · exact absurd halloc (allocLoop_no_poolFull _ p (by simp [hrec]) _ _)
  · intro c s1 h
    unfold forkOp at h
    cases halloc : allocLoop (fun j => (s.records j).isSome) p (2 * POOL) (p + 1) with
    | error e => rw [halloc] at h; cases h
    | ok c0 =>
      rw [halloc] at h
      cases hrec : s.records p with
      | none => rw [hrec] at h; cases h
      | some pr =>
        rw [hrec] at h
        simp only [Except.ok.injEq, Prod.mk.injEq] at h
        obtain ⟨rfl, rfl⟩ := h
        obtain ⟨hfree, k, hk, hprev⟩ := allocLoop_ok_spec _ p _ _ _ halloc
        have hnone : s.records c0 = none := by
          cases hx : s.records c0 with
          | none => rfl
          | some r => rw [hx] at hfree; simp at hfree
        have hcp : c0 ≠ p := by
          intro he
          rw [he, hrec] at hnone
          cases hnone
        refine ⟨hnone, ⟨k, hk, fun j hj => by simpa using hprev j hj⟩,
          ⟨pr, rfl, ?_, ?_, ?_⟩⟩
        · simp [setTable, setRecord, hcp]
        · simp [setTable, setRecord, hcp, Ne.symm hcp]
        · intro j hjc hjp
          simp [setTable, setRecord, hjc, hjp]
  · intro hp hall
    unfold forkOp
    cases halloc : allocLoop (fun j => (s.records j).isSome) p (2 * POOL) (p + 1) with
    | ok c =>
      exact absurd halloc
        (allocLoop_no_ok_of_all _ p (fun i hi => by simpa using hall i hi) _ _
          (by have hP : POOL = 65526 := rfl; omega) _)
    | error e =>
      rcases allocLoop_error_cases _ p _ _ _ halloc with rfl | rfl
      · exact absurd halloc (allocLoop_top_ne_fuelOut _ p hp)
      · rfl

/-- Witness for C9: a missing parent (id 9 of `exB`), a successful
allocation (`fork` of the root of `exB` probes 1, 2, 3 — all occupied —
and takes 4), and a full pool (`exFull`). -/
theorem c9_fork_allocation_witness :
    forkOp exB 9 = Except.error DBError.recordNotFound ∧
    forkOp exFull 5 = Except.error DBError.poolFull ∧
    exB.records 4 = none ∧
    (∃ k, 4 = probeAt 0 k ∧ ∀ j, j < k → (exB.records (probeAt 0 j)).isSome = true) ∧
    (∃ s1, forkOp exB 0 = Except.ok (4, s1) ∧
      s1.records 4 = some ⟨0, []⟩ ∧ s1.records 0 = some ⟨0, [1, 4]⟩) := by
  obtain ⟨sX, hX⟩ : ∃ s1, forkOp exB 0 = Except.ok (4, s1) := ⟨_, rfl⟩
  have hsucc := (c9_fork_allocation exB 0).2.1 4 sX hX
  refine ⟨(c9_fork_allocation exB 9).1 (by decide) rfl,
    (c9_fork_allocation exFull 5).2.2 (by decide) (fun i hi => by simp [exFull, hi]),
    hsucc.1, hsucc.2.1, ⟨sX, hX, ?_, ?_⟩⟩
  · exact hsucc.2.2.choose_spec.2.1
  · obtain ⟨pr, hpr, h1, h2, h3⟩ := hsucc.2.2
    have hpr1 : pr = ⟨0, [1]⟩ := by
      have h4 : some pr = some ⟨0, [1]⟩ := by rw [← hpr]; rfl
      exact Option.some.inj h4
    rw [hpr1] at h2
    exact h2

end ForkDB
